import Mathlib

/-!
Verification of the Cytopia terrain-grid core: the map-cell data model
(`src/src/engine/GameObjects/mapNode.hxx`), the elevation cascade engine, the
neighbor bitmask and the tile selector.  The repository sources under `src/`
provide only the `MapNode` header (cell fields, `_maxCellHeight = 32`,
`setType`, accessors); the grid, elevation engine and tile selector are
modelled from the specification, as noted on each definition.
-/

namespace Cytopia

set_option maxRecDepth 2000 in
/-- One of the eight neighbor directions, in bit order N, NE, E, SE, S, SW, W,
NW as laid out in the specification's data model for `neighborBitmask`. -/
inductive Direction where
  | N | NE | E | SE | S | SW | W | NW
deriving DecidableEq

/-- Bit index of a direction inside the neighbor bitmask. -/
def Direction.idx : Direction → Nat
  | .N => 0
  | .NE => 1
  | .E => 2
  | .SE => 3
  | .S => 4
  | .SW => 5
  | .W => 6
  | .NW => 7

/-- Column offset of a direction (x grows eastward). -/
def Direction.dx : Direction → Int
  | .N => 0
  | .NE => 1
  | .E => 1
  | .SE => 1
  | .S => 0
  | .SW => -1
  | .W => -1
  | .NW => -1

/-- Row offset of a direction (y grows southward). -/
def Direction.dy : Direction → Int
  | .N => -1
  | .NE => -1
  | .E => 0
  | .SE => 1
  | .S => 1
  | .SW => 1
  | .W => 0
  | .NW => -1

/-- All eight directions in bitmask order. -/
def Direction.all : List Direction := [.N, .NE, .E, .SE, .S, .SW, .W, .NW]

/-- Coordinate of the neighbor of `c` in direction `d`. -/
def neighborCoord (c : Int × Int) (d : Direction) : Int × Int :=
  (c.1 + d.dx, c.2 + d.dy)

/-- A map cell, after `MapNode` in `mapNode.hxx`: a logical height level, a
terrain type (`_type`, default `"Terrain"`) and the cached neighbor elevation
bitmask (`_elevationBitmask`, default `0`).  Coordinates are the grid index of
the cell, so they are not stored in the cell itself. -/
structure Cell where
  height : Int
  ttype : String
  elevationBitmask : Nat

/-- Modelled from the spec: the Grid component (missing from `src/`on, only the
`MapNode` cell header is present).  It owns all cells of a fixed
`width × gheight` arrangement, indexed by integer (column, row) coordinates;
`cellAt` is only meaningful on in-bounds coordinates. -/
structure Grid where
  width : Nat
  gheight : Nat
  cellAt : Int × Int → Cell

/-- Maximum legal cell height, from `_maxCellHeight = 32` in `mapNode.hxx`. -/
def maxCellHeight : Int := 32

/-- In-bounds test for a `w × h` extent. -/
def inB (w h : Nat) (c : Int × Int) : Bool :=
  decide (0 ≤ c.1) && decide (c.1 < (w : Int)) &&
    decide (0 ≤ c.2) && decide (c.2 < (h : Int))

/-- Whether a coordinate lies inside the grid extent. -/
def Grid.inBoundsB (g : Grid) (c : Int × Int) : Bool :=
  inB g.width g.gheight c

/-- Height of the cell at `c`. -/
def Grid.height (g : Grid) (c : Int × Int) : Int :=
  (g.cellAt c).height

/-- Replace the height of the cell at `c`, leaving every other cell and the
other fields of the cell untouched. -/
def Grid.setHeight (g : Grid) (c : Int × Int) (v : Int) : Grid :=
  { g with cellAt := fun x => if x = c then { g.cellAt x with height := v } else g.cellAt x }

/-- Modelled from the spec: `Grid::neighborsOf` — the coordinates of the up to
eight existing neighbors of `c`; entries outside the grid are omitted. -/
def Grid.neighborCoords (g : Grid) (c : Int × Int) : List (Int × Int) :=
  (Direction.all.map (neighborCoord c)).filter g.inBoundsB

/-- Whether the neighbor of `c` in direction `d` exists and is strictly
higher than `c` — the condition for bit `d.idx` of the elevation bitmask. -/
def Grid.dirHigher (g : Grid) (c : Int × Int) (d : Direction) : Bool :=
  g.inBoundsB (neighborCoord c d) && decide (g.height c < g.height (neighborCoord c d))

/-- Pack eight bits, least significant first, into a natural number. -/
def packBits (b0 b1 b2 b3 b4 b5 b6 b7 : Bool) : Nat :=
  b0.toNat + 2 * (b1.toNat + 2 * (b2.toNat + 2 * (b3.toNat +
    2 * (b4.toNat + 2 * (b5.toNat + 2 * (b6.toNat + 2 * b7.toNat))))))

/-- Modelled from the spec: recomputation of a cell's `neighborBitmask`
(invariant I2): bit `i` is set exactly when the neighbor in direction `i`
exists and has strictly greater height. -/
def Grid.computeBitmask (g : Grid) (c : Int × Int) : Nat :=
  packBits (g.dirHigher c .N) (g.dirHigher c .NE) (g.dirHigher c .E) (g.dirHigher c .SE)
    (g.dirHigher c .S) (g.dirHigher c .SW) (g.dirHigher c .W) (g.dirHigher c .NW)

/-- Modelled from the spec: after a cascade settles, the stored bitmask of
every cell in `area` (the touched cells and their neighbors) is recomputed
from the current heights. -/
def Grid.recomputeBitmasks (g : Grid) (area : List (Int × Int)) : Grid :=
  { g with cellAt := fun x =>
      if x ∈ area then { g.cellAt x with elevationBitmask := g.computeBitmask x }
      else g.cellAt x }

/-- Modelled from the spec: the iterative work-queue closure of the elevation
cascade (§4.2 step 3 and §9), parametric in the direction `d` (`1` raises,
`-1` lowers).  A popped cell already processed in this call is skipped (the
cycle guard); a popped cell whose moved height would leave `[0, maxCellHeight]`
is skipped (the recursive raise/lower procedure fails locally at the bound);
otherwise its height moves by `d` and every existing neighbor that now
violates the slope bound relative to it is enqueued.  `fuel` bounds the
number of iterations; `none` means the fuel ran out. -/
def cascade (d : Int) : Nat → Grid → List (Int × Int) → List (Int × Int) →
    Option (Grid × List (Int × Int))
  | 0, _, _, _ => none
  | _ + 1, g, [], vis => some (g, vis)
  | fuel + 1, g, n :: rest, vis =>
    if n ∈ vis then cascade d fuel g rest vis
    else if 0 ≤ g.height n + d ∧ g.height n + d ≤ maxCellHeight then
      let g1 := g.setHeight n (g.height n + d)
      let pushes := (g1.neighborCoords n).filter
        (fun m => decide (1 < d * (g1.height n - g1.height m)))
      cascade d fuel g1 (rest ++ pushes) (n :: vis)
    else cascade d fuel g rest vis

/-- Fuel that always suffices for a full cascade: each of the at most
`width × gheight` raised cells enqueues at most eight neighbors. -/
def Grid.cascadeFuel (g : Grid) : Nat :=
  2 + 9 * (g.width * g.gheight)

/-- Run the cascade for one top-level call starting at `c`. -/
def runCascade (d : Int) (g : Grid) (c : Int × Int) : Option (Grid × List (Int × Int)) :=
  cascade d g.cascadeFuel g [c] []

/-- Failure taxonomy of the elevation engine, from §7 of the spec. -/
inductive ElevError where
  | OutOfBounds | AtMaxHeight | AtMinHeight | InvariantViolation
deriving DecidableEq

/-- Modelled from the spec: run the cascade from `c` and, on settlement,
recompute the stored bitmask of every touched cell and of their neighbors
(§4.2 steps 3–4).  Fuel exhaustion is the internal-only `InvariantViolation`
signal. -/
def cascadeAndRecompute (d : Int) (g : Grid) (c : Int × Int) : Except ElevError Grid :=
  match runCascade d g c with
  | some (g1, vis) => .ok (g1.recomputeBitmasks (vis ++ vis.flatMap g1.neighborCoords))
  | none => .error .InvariantViolation

/-- Modelled from the spec: `ElevationEngine::raiseHeight` (§4.2; the
corresponding `MapNode::increaseHeight` body is not in `src/`).  Fails with
`OutOfBounds` outside the grid, with `AtMaxHeight` when the cell is at
`maxCellHeight` (no state change), otherwise increments the cell and cascades. -/
def raiseHeight (g : Grid) (c : Int × Int) : Except ElevError Grid :=
  if g.inBoundsB c = false then .error .OutOfBounds
  else if g.height c = maxCellHeight then .error .AtMaxHeight
  else cascadeAndRecompute 1 g c

/-- Modelled from the spec: `ElevationEngine::lowerHeight` (§4.2; the
corresponding `MapNode::decreaseHeight` body is not in `src/`).  Fails with
`OutOfBounds` outside the grid, with `AtMinHeight` when the cell is at height
`0` (no state change), otherwise decrements the cell and cascades. -/
def lowerHeight (g : Grid) (c : Int × Int) : Except ElevError Grid :=
  if g.inBoundsB c = false then .error .OutOfBounds
  else if g.height c = 0 then .error .AtMinHeight
  else cascadeAndRecompute (-1) g c

/-- The error reported by a raise call, if any. -/
def raiseErr (g : Grid) (c : Int × Int) : Option ElevError :=
  match raiseHeight g c with
  | .ok _ => none
  | .error e => some e

/-- The error reported by a lower call, if any. -/
def lowerErr (g : Grid) (c : Int × Int) : Option ElevError :=
  match lowerHeight g c with
  | .ok _ => none
  | .error e => some e

/-- The grid a caller holds after a raise call: the new grid on success, the
unchanged grid on a reported failure. -/
def raiseD (g : Grid) (c : Int × Int) : Grid :=
  match raiseHeight g c with
  | .ok g1 => g1
  | .error _ => g

/-- The grid a caller holds after a lower call. -/
def lowerD (g : Grid) (c : Int × Int) : Grid :=
  match lowerHeight g c with
  | .ok g1 => g1
  | .error _ => g

/-- `MapNode::setType` from `mapNode.hxx` line 69: a direct assignment of the
terrain type, touching no other field. -/
def Cell.setType (cell : Cell) (t : String) : Cell :=
  { cell with ttype := t }

/-- Apply `Cell.setType` to the cell at `c`, leaving every other cell alone. -/
def Grid.setType (g : Grid) (c : Int × Int) (t : String) : Grid :=
  { g with cellAt := fun x => if x = c then (g.cellAt x).setType t else g.cellAt x }

/-- Modelled from the spec: the terrain-independent part of the TileSelector
catalog (§4.3) — from the neighbor bitmask alone, the recognized slope shape
(flat, one of four straight slopes, four outer corners, four inner corners,
with every unrecognized combination falling back to flat) and its orientation
among the four cardinal rotations (`"default"` for flat). -/
def tileShape (bitmask : Nat) : String × String :=
  let n := bitmask.testBit 0
  let ne := bitmask.testBit 1
  let e := bitmask.testBit 2
  let se := bitmask.testBit 3
  let s := bitmask.testBit 4
  let sw := bitmask.testBit 5
  let w := bitmask.testBit 6
  let nw := bitmask.testBit 7
  if !n && !ne && !e && !se && !s && !sw && !w && !nw then ("_flat", "default")
  else if n && !e && !s && !w then ("_slope", "N")
  else if e && !n && !s && !w then ("_slope", "E")
  else if s && !n && !e && !w then ("_slope", "S")
  else if w && !n && !e && !s then ("_slope", "W")
  else if n && e && !s && !w then ("_cornerInner", "N")
  else if e && s && !n && !w then ("_cornerInner", "E")
  else if s && w && !n && !e then ("_cornerInner", "S")
  else if w && n && !e && !s then ("_cornerInner", "W")
  else if ne && !n && !e && !s && !w then ("_cornerOuter", "N")
  else if se && !n && !e && !s && !w then ("_cornerOuter", "E")
  else if sw && !n && !e && !s && !w then ("_cornerOuter", "S")
  else if nw && !n && !e && !s && !w then ("_cornerOuter", "W")
  else ("_flat", "default")

/-- Modelled from the spec: the TileSelector pure mapping (§4.3; absent from
`src/`, where `MapNode` only caches `_tileID` and `_orientation`).  It maps a
neighbor bitmask and a terrain type to the terrain-type-specific tile asset
key for the recognized shape, together with its orientation. -/
def tileSelector (bitmask : Nat) (terrainType : String) : String × String :=
  (terrainType ++ (tileShape bitmask).1, (tileShape bitmask).2)

/-- The tile key a cell resolves to: TileSelector applied to the cell's
stored bitmask and terrain type. -/
def Grid.cellTileKey (g : Grid) (c : Int × Int) : String × String :=
  tileSelector (g.cellAt c).elevationBitmask (g.cellAt c).ttype

/-- Modelled from the spec: a freshly constructed grid — every cell at height
`0`, terrain `"Terrain"` and bitmask `0`, matching the `MapNode` field
defaults. -/
def freshGrid (w h : Nat) : Grid :=
  ⟨w, h, fun _ => ⟨0, "Terrain", 0⟩⟩

/-- Two coordinates are 8-adjacent: distinct, and both offsets within one. -/
def adjCoord (a b : Int × Int) : Prop :=
  a ≠ b ∧ -1 ≤ b.1 - a.1 ∧ b.1 - a.1 ≤ 1 ∧ -1 ≤ b.2 - a.2 ∧ b.2 - a.2 ≤ 1

/-- Two cells of the grid are 8-adjacent: both in bounds and 8-adjacent as
coordinates. -/
def Adj (g : Grid) (a b : Int × Int) : Prop :=
  g.inBoundsB a = true ∧ g.inBoundsB b = true ∧ adjCoord a b

/-- Invariant I1, the slope bound: any two 8-adjacent cells differ in height
by at most one.  Quantified over ordered pairs, which covers both sides. -/
def SlopeOk (g : Grid) : Prop :=
  ∀ a b, Adj g a b → g.height a ≤ g.height b + 1

/-- Every cell's height lies in `[0, maxCellHeight]`. -/
def HeightsOk (g : Grid) : Prop :=
  ∀ x, 0 ≤ g.height x ∧ g.height x ≤ maxCellHeight

/-- Invariant I2: the stored bitmask of every in-bounds cell agrees with the
recomputation from the current neighbor heights. -/
def BitmaskOk (g : Grid) : Prop :=
  ∀ x, g.inBoundsB x = true → (g.cellAt x).elevationBitmask = g.computeBitmask x

/-- The grids reachable from a freshly constructed grid by successful
`raiseHeight` / `lowerHeight` calls and by `setType` mutations. -/
inductive Reachable : Grid → Prop where
  | fresh (w h : Nat) : Reachable (freshGrid w h)
  | raise (g g' : Grid) (c : Int × Int) :
      Reachable g → raiseHeight g c = .ok g' → Reachable g'
  | lower (g g' : Grid) (c : Int × Int) :
      Reachable g → lowerHeight g c = .ok g' → Reachable g'
  | settype (g : Grid) (c : Int × Int) (t : String) :
      Reachable g → Reachable (g.setType c t)

/-- Loop invariant of the cascade work queue, relating the running state
`(g, Q, vis)` to the pre-call grid `g0`.  Every visited cell moved by exactly
`d`; unvisited cells are untouched; heights stay inside the legal band; and
every adjacent pair either satisfies the slope bound in direction `d` or is a
pending violation whose lagging cell is still queued and unvisited. -/
structure CState (d : Int) (g0 g : Grid) (Q vis : List (Int × Int)) : Prop where
  hW : g.width = g0.width
  hH : g.gheight = g0.gheight
  hnodup : vis.Nodup
  hvin : ∀ x ∈ vis, g0.inBoundsB x = true
  hqin : ∀ x ∈ Q, g0.inBoundsB x = true
  hheight : ∀ x, g.height x = g0.height x + (if x ∈ vis then d else 0)
  hframe : ∀ x, x ∉ vis → g.cellAt x = g0.cellAt x
  hmeta : ∀ x, (g.cellAt x).ttype = (g0.cellAt x).ttype ∧
    (g.cellAt x).elevationBitmask = (g0.cellAt x).elevationBitmask
  hband : ∀ x, 0 ≤ g.height x ∧ g.height x ≤ maxCellHeight
  hslope : ∀ a b, Adj g0 a b → d * (g.height a - g.height b) ≤ 1 ∨
    (d * (g.height a - g.height b) = 2 ∧ b ∈ Q ∧ b ∉ vis)

/-- All coordinates of a `w × h` grid, row-major. -/
def allCoords (w h : Nat) : List (Int × Int) :=
  (List.range (w * h)).map (fun i => (((i % w : Nat) : Int), ((i / w : Nat) : Int)))

/-- Number of grid coordinates not yet visited — the cascade's decreasing
measure, weighted by the queue. -/
def unvisitedCount (w h : Nat) (vis : List (Int × Int)) : Nat :=
  ((allCoords w h).filter (fun x => if x ∈ vis then false else true)).length

/-- The 3×3 scenario grid of the spec's Scenario 2: two raises at the
center of a fresh 3×3 grid. -/
def scenario2 : Grid :=
  raiseD (raiseD (freshGrid 3 3) (1, 1)) (1, 1)

/-- Scenario 2 exactly as the claim states it: center at height 2, all eight
neighbors of the center at height 1, and the four corner cells of the 3×3
still at height 0. -/
def claimC2Stated : Prop :=
  scenario2.height (1, 1) = 2 ∧
  scenario2.height (0, 0) = 1 ∧ scenario2.height (1, 0) = 1 ∧ scenario2.height (2, 0) = 1 ∧
  scenario2.height (0, 1) = 1 ∧ scenario2.height (2, 1) = 1 ∧
  scenario2.height (0, 2) = 1 ∧ scenario2.height (1, 2) = 1 ∧ scenario2.height (2, 2) = 1 ∧
  scenario2.height (0, 0) = 0 ∧ scenario2.height (2, 0) = 0 ∧
  scenario2.height (0, 2) = 0 ∧ scenario2.height (2, 2) = 0

/-- Iterated raising of the single cell of a fresh 1×1 grid, for the spec's
Scenario 3. -/
def raiseIter : Nat → Grid
  | 0 => freshGrid 1 1
  | k + 1 => raiseD (raiseIter k) (0, 0)

/-! ### Basic lemmas about the grid primitives -/

theorem width_setHeight (g : Grid) (c : Int × Int) (v : Int) :
    (g.setHeight c v).width = g.width := rfl

theorem gheight_setHeight (g : Grid) (c : Int × Int) (v : Int) :
    (g.setHeight c v).gheight = g.gheight := rfl

theorem inBoundsB_setHeight (g : Grid) (c : Int × Int) (v : Int) :
    (g.setHeight c v).inBoundsB = g.inBoundsB := rfl

theorem height_setHeight (g : Grid) (c : Int × Int) (v : Int) (x : Int × Int) :
    (g.setHeight c v).height x = if x = c then v else g.height x := by
  simp only [Grid.setHeight, Grid.height]
  split <;> rfl

theorem cellAt_setHeight_ne (g : Grid) (c : Int × Int) (v : Int) {x : Int × Int}
    (hx : x ≠ c) : (g.setHeight c v).cellAt x = g.cellAt x := by
  simp [Grid.setHeight, hx]

theorem ttype_setHeight (g : Grid) (c : Int × Int) (v : Int) (x : Int × Int) :
    ((g.setHeight c v).cellAt x).ttype = (g.cellAt x).ttype := by
  simp only [Grid.setHeight]
  split <;> rfl

theorem bitmask_setHeight (g : Grid) (c : Int × Int) (v : Int) (x : Int × Int) :
    ((g.setHeight c v).cellAt x).elevationBitmask = (g.cellAt x).elevationBitmask := by
  simp only [Grid.setHeight]
  split <;> rfl

theorem width_recompute (g : Grid) (A : List (Int × Int)) :
    (g.recomputeBitmasks A).width = g.width := rfl

theorem gheight_recompute (g : Grid) (A : List (Int × Int)) :
    (g.recomputeBitmasks A).gheight = g.gheight := rfl

theorem inBoundsB_recompute (g : Grid) (A : List (Int × Int)) :
    (g.recomputeBitmasks A).inBoundsB = g.inBoundsB := rfl

theorem height_recompute (g : Grid) (A : List (Int × Int)) (x : Int × Int) :
    (g.recomputeBitmasks A).height x = g.height x := by
  simp only [Grid.recomputeBitmasks, Grid.height]
  split <;> rfl

theorem ttype_recompute (g : Grid) (A : List (Int × Int)) (x : Int × Int) :
    ((g.recomputeBitmasks A).cellAt x).ttype = (g.cellAt x).ttype := by
  simp only [Grid.recomputeBitmasks]
  split <;> rfl

theorem cellAt_recompute_mem (g : Grid) {A : List (Int × Int)} {x : Int × Int}
    (hx : x ∈ A) : (g.recomputeBitmasks A).cellAt x =
      { g.cellAt x with elevationBitmask := g.computeBitmask x } := by
  simp [Grid.recomputeBitmasks, hx]

theorem cellAt_recompute_not_mem (g : Grid) {A : List (Int × Int)} {x : Int × Int}
    (hx : x ∉ A) : (g.recomputeBitmasks A).cellAt x = g.cellAt x := by
  simp [Grid.recomputeBitmasks, hx]

theorem width_setType (g : Grid) (c : Int × Int) (t : String) :
    (g.setType c t).width = g.width := rfl

theorem gheight_setType (g : Grid) (c : Int × Int) (t : String) :
    (g.setType c t).gheight = g.gheight := rfl

theorem inBoundsB_setType (g : Grid) (c : Int × Int) (t : String) :
    (g.setType c t).inBoundsB = g.inBoundsB := rfl

theorem height_setType (g : Grid) (c : Int × Int) (t : String) (x : Int × Int) :
    (g.setType c t).height x = g.height x := by
  simp only [Grid.setType, Grid.height, Cell.setType]
  split <;> rfl

theorem bitmask_setType (g : Grid) (c : Int × Int) (t : String) (x : Int × Int) :
    ((g.setType c t).cellAt x).elevationBitmask = (g.cellAt x).elevationBitmask := by
  simp only [Grid.setType, Cell.setType]
  split <;> rfl

theorem cellAt_setType_ne (g : Grid) (c : Int × Int) (t : String) {x : Int × Int}
    (hx : x ≠ c) : (g.setType c t).cellAt x = g.cellAt x := by
  simp [Grid.setType, hx]

theorem ttype_setType_self (g : Grid) (c : Int × Int) (t : String) :
    ((g.setType c t).cellAt c).ttype = t := by
  simp [Grid.setType, Cell.setType]

theorem height_freshGrid (w h : Nat) (x : Int × Int) :
    (freshGrid w h).height x = 0 := rfl

/-! ### Adjacency -/

theorem mem_dirList {a b : Int × Int} :
    b ∈ Direction.all.map (neighborCoord a) ↔ adjCoord a b := by
  obtain ⟨a1, a2⟩ := a
  obtain ⟨b1, b2⟩ := b
  simp only [Direction.all, List.map_cons, List.map_nil, List.mem_cons, List.not_mem_nil,
    or_false, neighborCoord, Direction.dx, Direction.dy, adjCoord, ne_eq, Prod.mk.injEq,
    Prod.ext_iff, not_and]
  omega

theorem adjCoord_symm {a b : Int × Int} (h : adjCoord a b) : adjCoord b a := by
  obtain ⟨a1, a2⟩ := a
  obtain ⟨b1, b2⟩ := b
  simp only [adjCoord, ne_eq, Prod.mk.injEq, not_and, Prod.ext_iff] at h ⊢
  omega

theorem adjCoord_neighborCoord (c : Int × Int) (d : Direction) :
    adjCoord c (neighborCoord c d) := by
  obtain ⟨c1, c2⟩ := c
  cases d <;>
    (simp only [adjCoord, neighborCoord, Direction.dx, Direction.dy, ne_eq, Prod.mk.injEq,
      not_and, Prod.ext_iff]
     omega)

theorem mem_neighborCoords {g : Grid} {a b : Int × Int} :
    b ∈ g.neighborCoords a ↔ g.inBoundsB b = true ∧ adjCoord a b := by
  rw [Grid.neighborCoords, List.mem_filter, mem_dirList, and_comm]

theorem adj_symm {g : Grid} {a b : Int × Int} (h : Adj g a b) : Adj g b a :=
  ⟨h.2.1, h.1, adjCoord_symm h.2.2⟩

theorem adj_congr {g g2 : Grid} (hW : g.width = g2.width) (hH : g.gheight = g2.gheight)
    (a b : Int × Int) : Adj g a b ↔ Adj g2 a b := by
  simp [Adj, Grid.inBoundsB, hW, hH]

theorem inBoundsB_congr {g g2 : Grid} (hW : g.width = g2.width)
    (hH : g.gheight = g2.gheight) : g.inBoundsB = g2.inBoundsB := by
  funext c
  simp [Grid.inBoundsB, hW, hH]

theorem neighborCoords_congr {g g2 : Grid} (hW : g.width = g2.width)
    (hH : g.gheight = g2.gheight) : g.neighborCoords = g2.neighborCoords := by
  funext c
  simp [Grid.neighborCoords, inBoundsB_congr hW hH]

theorem length_neighborCoords_le (g : Grid) (c : Int × Int) :
    (g.neighborCoords c).length ≤ 8 :=
  le_trans (List.length_filter_le _ _) (by simp [Direction.all])

theorem mem_neighborCoords_of_adj {g : Grid} {a b : Int × Int} (h : Adj g a b) :
    b ∈ g.neighborCoords a :=
  mem_neighborCoords.2 ⟨h.2.1, h.2.2⟩

/-! ### Bit packing -/

theorem packBits_testBit (b0 b1 b2 b3 b4 b5 b6 b7 : Bool) :
    (packBits b0 b1 b2 b3 b4 b5 b6 b7).testBit 0 = b0 ∧
    (packBits b0 b1 b2 b3 b4 b5 b6 b7).testBit 1 = b1 ∧
    (packBits b0 b1 b2 b3 b4 b5 b6 b7).testBit 2 = b2 ∧
    (packBits b0 b1 b2 b3 b4 b5 b6 b7).testBit 3 = b3 ∧
    (packBits b0 b1 b2 b3 b4 b5 b6 b7).testBit 4 = b4 ∧
    (packBits b0 b1 b2 b3 b4 b5 b6 b7).testBit 5 = b5 ∧
    (packBits b0 b1 b2 b3 b4 b5 b6 b7).testBit 6 = b6 ∧
    (packBits b0 b1 b2 b3 b4 b5 b6 b7).testBit 7 = b7 := by
  cases b0 <;> cases b1 <;> cases b2 <;> cases b3 <;>
    cases b4 <;> cases b5 <;> cases b6 <;> cases b7 <;> decide

theorem testBit_computeBitmask (g : Grid) (c : Int × Int) (d : Direction) :
    (g.computeBitmask c).testBit d.idx = g.dirHigher c d := by
  obtain ⟨h0, h1, h2, h3, h4, h5, h6, h7⟩ :=
    packBits_testBit (g.dirHigher c .N) (g.dirHigher c .NE) (g.dirHigher c .E)
      (g.dirHigher c .SE) (g.dirHigher c .S) (g.dirHigher c .SW) (g.dirHigher c .W)
      (g.dirHigher c .NW)
  cases d
  exacts [h0, h1, h2, h3, h4, h5, h6, h7]

theorem computeBitmask_congr {g g2 : Grid} (c : Int × Int)
    (hW : g.width = g2.width) (hH : g.gheight = g2.gheight)
    (hc : g.height c = g2.height c)
    (hn : ∀ d : Direction, g.height (neighborCoord c d) = g2.height (neighborCoord c d)) :
    g.computeBitmask c = g2.computeBitmask c := by
  have hd : ∀ d : Direction, g.dirHigher c d = g2.dirHigher c d := by
    intro d
    simp [Grid.dirHigher, inBoundsB_congr hW hH, hc, hn d]
  simp [Grid.computeBitmask, hd]

/-! ### Coordinate enumeration -/

theorem length_allCoords (w h : Nat) : (allCoords w h).length = w * h := by
  simp [allCoords]

theorem mem_allCoords {w h : Nat} {x : Int × Int} :
    x ∈ allCoords w h ↔
      (0 ≤ x.1 ∧ x.1 < (w : Int) ∧ 0 ≤ x.2 ∧ x.2 < (h : Int)) := by
  obtain ⟨x1, x2⟩ := x
  simp only [allCoords, List.mem_map, List.mem_range, Prod.mk.injEq]
  constructor
  · rintro ⟨i, hi, h1, h2⟩
    have hw : 0 < w := by
      rcases Nat.eq_zero_or_pos w with hw0 | hw0
      · subst hw0
        simp at hi
      · exact hw0
    subst h1
    subst h2
    refine ⟨by positivity, ?_, by positivity, ?_⟩
    · exact_mod_cast Nat.mod_lt i hw
    · exact_mod_cast Nat.div_lt_of_lt_mul hi
  · rintro ⟨h1, h2, h3, h4⟩
    have hw : 0 < w := by omega
    refine ⟨x2.toNat * w + x1.toNat, ?_, ?_, ?_⟩
    · have ha : x1.toNat < w := by omega
      have hb : x2.toNat < h := by omega
      calc x2.toNat * w + x1.toNat < x2.toNat * w + w := by omega
        _ = (x2.toNat + 1) * w := by ring
        _ ≤ h * w := Nat.mul_le_mul_right w (by omega)
        _ = w * h := Nat.mul_comm h w
    · have : (x2.toNat * w + x1.toNat) % w = x1.toNat := by
        rw [Nat.mul_comm, Nat.mul_add_mod]
        exact Nat.mod_eq_of_lt (by omega)
      rw [this]
      omega
    · have : (x2.toNat * w + x1.toNat) / w = x2.toNat := by
        rw [Nat.mul_comm, Nat.mul_add_div hw]
        have : x1.toNat / w = 0 := Nat.div_eq_of_lt (by omega)
        omega
      rw [this]
      omega

theorem nodup_allCoords (w h : Nat) : (allCoords w h).Nodup := by
  refine List.Nodup.map_on ?_ (List.nodup_range _)
  intro i hi j hj hij
  simp only [Prod.mk.injEq, Nat.cast_inj] at hij
  obtain ⟨h1, h2⟩ := hij
  have di := Nat.div_add_mod i w
  have dj := Nat.div_add_mod j w
  rw [h1, h2] at di
  omega

theorem mem_allCoords_iff_inBounds {g : Grid} {x : Int × Int} :
    x ∈ allCoords g.width g.gheight ↔ g.inBoundsB x = true := by
  rw [mem_allCoords]
  simp [Grid.inBoundsB, inB, and_assoc]

theorem unvisited_filter_cons :
    ∀ (l : List (Int × Int)) (vis : List (Int × Int)) (n : Int × Int), l.Nodup →
      n ∈ l → n ∉ vis →
      ((l.filter (fun x => if x ∈ n :: vis then false else true)).length) + 1 =
        (l.filter (fun x => if x ∈ vis then false else true)).length := by
  intro l
  induction l with
  | nil => simp
  | cons a t ih =>
    intro vis n hnd hmem hnv
    have hndt : t.Nodup := (List.nodup_cons.1 hnd).2
    have hant : a ∉ t := (List.nodup_cons.1 hnd).1
    rcases List.mem_cons.1 hmem with rfl | hnt
    · have ha1 : (if n ∈ n :: vis then false else true) = false := by
        simp
      have ha2 : (if n ∈ vis then false else true) = true := by
        simp [hnv]
      rw [List.filter_cons, List.filter_cons, ha1, ha2]
      have hcong : t.filter (fun x => if x ∈ n :: vis then false else true) =
          t.filter (fun x => if x ∈ vis then false else true) := by
        apply List.filter_congr
        intro x hx
        have hxa : x ≠ n := fun hh => hant (hh ▸ hx)
        simp [List.mem_cons, hxa]
      rw [hcong]
      simp
    · have hna : a ≠ n := by
        intro hh
        exact hant (hh ▸ hnt)
      have hstep := ih vis n hndt hnt hnv
      rw [List.filter_cons, List.filter_cons]
      have ha : (if a ∈ n :: vis then false else true) = (if a ∈ vis then false else true) := by
        by_cases hav : a ∈ vis
        · have : a ∈ n :: vis := List.mem_cons_of_mem n hav
          simp [this, hav]
        · have : a ∉ n :: vis := by
            simp [List.mem_cons, hna, hav]
          simp [this, hav]
      rw [ha]
      by_cases hav : a ∈ vis
      · have hfa : (if a ∈ vis then false else true) = false := by simp [hav]
        rw [hfa]
        simpa using hstep
      · have hfa : (if a ∈ vis then false else true) = true := by simp [hav]
        rw [hfa]
        simp only [if_true, List.length_cons]
        omega

theorem unvisitedCount_nil (w h : Nat) : unvisitedCount w h [] = w * h := by
  have hcong : (allCoords w h).filter (fun x => if x ∈ ([] : List (Int × Int)) then false else true) =
      (allCoords w h).filter (fun _ => true) := by
    apply List.filter_congr
    intro x _
    simp
  rw [unvisitedCount, hcong, List.filter_true, length_allCoords]

theorem unvisitedCount_cons {w h : Nat} {vis : List (Int × Int)} {n : Int × Int}
    (hn : n ∈ allCoords w h) (hnv : n ∉ vis) :
    unvisitedCount w h (n :: vis) + 1 = unvisitedCount w h vis :=
  unvisited_filter_cons (allCoords w h) vis n (nodup_allCoords w h) hn hnv

/-! ### The cascade work-queue: frame, termination, and the slope invariant -/

theorem cascade_frame (d : Int) :
    ∀ (fuel : Nat) (g : Grid) (Q vis : List (Int × Int)) (g' : Grid) (vis' : List (Int × Int)),
      (∀ x ∈ Q, g.inBoundsB x = true) → vis.Nodup → (∀ x ∈ vis, g.inBoundsB x = true) →
      cascade d fuel g Q vis = some (g', vis') →
      g'.width = g.width ∧ g'.gheight = g.gheight ∧ vis'.Nodup ∧
        (∀ x ∈ vis', g.inBoundsB x = true) ∧
        (∀ x, x ∉ vis' → g'.cellAt x = g.cellAt x) ∧ vis ⊆ vis' := by
  intro fuel
  induction fuel with
  | zero =>
    intro g Q vis g' vis' _ _ _ hc
    simp [cascade] at hc
  | succ fuel ih =>
    intro g Q vis g' vis' hq hnd hv hc
    cases Q with
    | nil =>
      simp only [cascade, Option.some.injEq, Prod.mk.injEq] at hc
      obtain ⟨rfl, rfl⟩ := hc
      exact ⟨rfl, rfl, hnd, hv, fun x _ => rfl, fun x hx => hx⟩
    | cons n rest =>
      simp only [cascade] at hc
      by_cases hnv : n ∈ vis
      · rw [if_pos hnv] at hc
        exact ih g rest vis g' vis' (fun x hx => hq x (List.mem_cons_of_mem n hx)) hnd hv hc
      · rw [if_neg hnv] at hc
        by_cases hb : 0 ≤ g.height n + d ∧ g.height n + d ≤ maxCellHeight
        · rw [if_pos hb] at hc
          have hq1 : ∀ x ∈ rest ++ ((g.setHeight n (g.height n + d)).neighborCoords n).filter
              (fun m => decide (1 < d * ((g.setHeight n (g.height n + d)).height n -
                (g.setHeight n (g.height n + d)).height m))),
              (g.setHeight n (g.height n + d)).inBoundsB x = true := by
            intro x hx
            rcases List.mem_append.1 hx with hx | hx
            · rw [inBoundsB_setHeight]
              exact hq x (List.mem_cons_of_mem n hx)
            · exact (mem_neighborCoords.1 (List.mem_filter.1 hx).1).1
          have hnd1 : (n :: vis).Nodup := List.nodup_cons.2 ⟨hnv, hnd⟩
          have hv1 : ∀ x ∈ n :: vis, (g.setHeight n (g.height n + d)).inBoundsB x = true := by
            intro x hx
            rw [inBoundsB_setHeight]
            rcases List.mem_cons.1 hx with rfl | hx
            · exact hq x (List.mem_cons_self _ _)
            · exact hv x hx
          obtain ⟨w1, w2, w3, w4, w5, w6⟩ := ih _ _ _ g' vis' hq1 hnd1 hv1 hc
          refine ⟨w1, w2, w3, ?_, ?_, ?_⟩
          · intro x hx
            have := w4 x hx
            rwa [inBoundsB_setHeight] at this
          · intro x hx
            have hxn : x ≠ n := by
              intro hh
              exact hx (hh ▸ w6 (List.mem_cons_self n vis))
            rw [w5 x hx, cellAt_setHeight_ne g n _ hxn]
          · exact fun x hx => w6 (List.mem_cons_of_mem n hx)
        · rw [if_neg hb] at hc
          exact ih g rest vis g' vis' (fun x hx => hq x (List.mem_cons_of_mem n hx)) hnd hv hc

theorem cascade_some (d : Int) :
    ∀ (fuel : Nat) (g : Grid) (Q vis : List (Int × Int)),
      (∀ x ∈ Q, g.inBoundsB x = true) → vis.Nodup →
      1 + Q.length + 9 * unvisitedCount g.width g.gheight vis ≤ fuel →
      (cascade d fuel g Q vis).isSome = true := by
  intro fuel
  induction fuel with
  | zero =>
    intro g Q vis _ _ hf
    omega
  | succ fuel ih =>
    intro g Q vis hq hnd hf
    cases Q with
    | nil =>
      simp [cascade]
    | cons n rest =>
      simp only [cascade]
      by_cases hnv : n ∈ vis
      · rw [if_pos hnv]
        apply ih g rest vis (fun x hx => hq x (List.mem_cons_of_mem n hx)) hnd
        simp only [List.length_cons] at hf
        omega
      · rw [if_neg hnv]
        by_cases hb : 0 ≤ g.height n + d ∧ g.height n + d ≤ maxCellHeight
        · rw [if_pos hb]
          apply ih
          · intro x hx
            rcases List.mem_append.1 hx with hx | hx
            · rw [inBoundsB_setHeight]
              exact hq x (List.mem_cons_of_mem n hx)
            · exact (mem_neighborCoords.1 (List.mem_filter.1 hx).1).1
          · exact List.nodup_cons.2 ⟨hnv, hnd⟩
          · have hmem : n ∈ allCoords g.width g.gheight :=
              mem_allCoords_iff_inBounds.2 (hq n (List.mem_cons_self _ _))
            have hcount := unvisitedCount_cons hmem hnv
            have hpl : (((g.setHeight n (g.height n + d)).neighborCoords n).filter
                (fun m => decide (1 < d * ((g.setHeight n (g.height n + d)).height n -
                  (g.setHeight n (g.height n + d)).height m)))).length ≤ 8 :=
              le_trans (List.length_filter_le _ _) (length_neighborCoords_le _ _)
            rw [List.length_append]
            simp only [List.length_cons] at hf
            have hwid : (g.setHeight n (g.height n + d)).width = g.width := rfl
            have hght : (g.setHeight n (g.height n + d)).gheight = g.gheight := rfl
            rw [hwid, hght]
            omega
        · rw [if_neg hb]
          apply ih g rest vis (fun x hx => hq x (List.mem_cons_of_mem n hx)) hnd
          simp only [List.length_cons] at hf
          omega

theorem cascade_sound {d : Int} (hd : d = 1 ∨ d = -1) {g0 : Grid} (hS : SlopeOk g0) :
    ∀ (fuel : Nat) (g : Grid) (Q vis : List (Int × Int)) (g' : Grid) (vis' : List (Int × Int)),
      CState d g0 g Q vis →
      cascade d fuel g Q vis = some (g', vis') →
      CState d g0 g' [] vis' ∧ vis ⊆ vis' ∧
        (∀ x ∈ Q, x ∈ vis' ∨ ¬ (0 ≤ g0.height x + d ∧ g0.height x + d ≤ maxCellHeight)) := by
  intro fuel
  induction fuel with
  | zero =>
    intro g Q vis g' vis' _ hc
    simp [cascade] at hc
  | succ fuel ih =>
    intro g Q vis g' vis' st hc
    cases Q with
    | nil =>
      simp only [cascade, Option.some.injEq, Prod.mk.injEq] at hc
      obtain ⟨rfl, rfl⟩ := hc
      exact ⟨st, fun x hx => hx, by simp⟩
    | cons n rest =>
      simp only [cascade] at hc
      have hnin : g0.inBoundsB n = true := st.hqin n (List.mem_cons_self _ _)
      by_cases hnv : n ∈ vis
      · rw [if_pos hnv] at hc
        have st1 : CState d g0 g rest vis := by
          refine ⟨st.hW, st.hH, st.hnodup, st.hvin,
            fun x hx => st.hqin x (List.mem_cons_of_mem n hx), st.hheight, st.hframe,
            st.hmeta, st.hband, ?_⟩
          intro a b hab
          rcases st.hslope a b hab with h | h
          · exact Or.inl h
          · refine Or.inr ⟨h.1, ?_, h.2.2⟩
            rcases List.mem_cons.1 h.2.1 with rfl | hr
            · exact absurd hnv h.2.2
            · exact hr
        obtain ⟨w1, w2, w3⟩ := ih g rest vis g' vis' st1 hc
        refine ⟨w1, w2, ?_⟩
        intro x hx
        rcases List.mem_cons.1 hx with rfl | hx
        · exact Or.inl (w2 hnv)
        · exact w3 x hx
      · rw [if_neg hnv] at hc
        have hgn : g.height n = g0.height n := by
          rw [st.hheight n, if_neg hnv]
          ring
        by_cases hb : 0 ≤ g.height n + d ∧ g.height n + d ≤ maxCellHeight
        · rw [if_pos hb] at hc
          have e1 : (g.setHeight n (g.height n + d)).height n = g.height n + d := by
            rw [height_setHeight, if_pos rfl]
          have e2 : ∀ x, x ≠ n → (g.setHeight n (g.height n + d)).height x = g.height x := by
            intro x hx
            rw [height_setHeight, if_neg hx]
          have st1 : CState d g0 (g.setHeight n (g.height n + d))
              (rest ++ ((g.setHeight n (g.height n + d)).neighborCoords n).filter
                (fun m => decide (1 < d * ((g.setHeight n (g.height n + d)).height n -
                  (g.setHeight n (g.height n + d)).height m)))) (n :: vis) := by
            refine ⟨st.hW, st.hH, List.nodup_cons.2 ⟨hnv, st.hnodup⟩, ?_, ?_, ?_, ?_, ?_, ?_, ?_⟩
            · intro x hx
              rcases List.mem_cons.1 hx with rfl | hx
              · exact hnin
              · exact st.hvin x hx
            · intro x hx
              rcases List.mem_append.1 hx with hx | hx
              · exact st.hqin x (List.mem_cons_of_mem n hx)
              · have hin1 : (g.setHeight n (g.height n + d)).inBoundsB x = true :=
                  (mem_neighborCoords.1 (List.mem_filter.1 hx).1).1
                rw [inBoundsB_setHeight, inBoundsB_congr st.hW st.hH] at hin1
                exact hin1
            · intro x
              by_cases hxn : x = n
              · subst hxn
                rw [e1, hgn, if_pos (List.mem_cons_self _ _)]
              · rw [e2 x hxn, st.hheight x]
                have hiff : (x ∈ n :: vis) ↔ (x ∈ vis) := by
                  simp [List.mem_cons, hxn]
                simp only [hiff]
            · intro x hx
              have hxn : x ≠ n := fun hh => hx (hh ▸ List.mem_cons_self n vis)
              have hxv : x ∉ vis := fun hh => hx (List.mem_cons_of_mem n hh)
              rw [cellAt_setHeight_ne g n _ hxn]
              exact st.hframe x hxv
            · intro x
              rw [ttype_setHeight, bitmask_setHeight]
              exact st.hmeta x
            · intro x
              by_cases hxn : x = n
              · subst hxn
                rw [e1]
                exact hb
              · rw [e2 x hxn]
                exact st.hband x
            · intro a b hab
              have old := st.hslope a b hab
              have habne : a ≠ b := hab.2.2.1
              by_cases hbn : b = n
              · subst hbn
                left
                have ea : (g.setHeight b (g.height b + d)).height a = g.height a :=
                  e2 a habne
                rcases old with h | h
                · rcases hd with rfl | rfl <;> (rw [ea, e1] at *; omega)
                · rcases hd with rfl | rfl <;> (rw [ea, e1] at *; omega)
              · by_cases han : a = n
                · subst han
                  have eb : (g.setHeight a (g.height a + d)).height b = g.height b :=
                    e2 b (fun hh => habne hh.symm)
                  have s1 : g0.height a ≤ g0.height b + 1 := hS a b hab
                  have s2 : g0.height b ≤ g0.height a + 1 := hS b a (adj_symm hab)
                  by_cases hbv : b ∈ vis
                  · left
                    have hgb : g.height b = g0.height b + d := by
                      rw [st.hheight b, if_pos hbv]
                    rcases hd with rfl | rfl <;> (rw [eb, e1, hgb, hgn]; omega)
                  · have hgb : g.height b = g0.height b := by
                      rw [st.hheight b, if_neg hbv]
                      ring
                    by_cases hle : d * ((g.setHeight a (g.height a + d)).height a -
                        (g.setHeight a (g.height a + d)).height b) ≤ 1
                    · exact Or.inl hle
                    · right
                      have heq : d * ((g.setHeight a (g.height a + d)).height a -
                          (g.setHeight a (g.height a + d)).height b) = 2 := by
                        rw [eb, e1, hgb, hgn] at hle ⊢
                        rcases hd with rfl | rfl <;> omega
                      refine ⟨heq, ?_, ?_⟩
                      · apply List.mem_append_right
                        apply List.mem_filter.2
                        refine ⟨?_, ?_⟩
                        · apply mem_neighborCoords.2
                          refine ⟨?_, hab.2.2⟩
                          rw [inBoundsB_setHeight, inBoundsB_congr st.hW st.hH]
                          exact hab.2.1
                        · rw [heq]
                          decide
                      · simp [List.mem_cons, hbn, hbv]
                · have ea : (g.setHeight n (g.height n + d)).height a = g.height a := e2 a han
                  have eb : (g.setHeight n (g.height n + d)).height b = g.height b := e2 b hbn
                  rcases old with h | h
                  · left
                    rw [ea, eb]
                    exact h
                  · right
                    refine ⟨by rw [ea, eb]; exact h.1, ?_, ?_⟩
                    · apply List.mem_append_left
                      rcases List.mem_cons.1 h.2.1 with rfl | hr
                      · exact absurd rfl hbn
                      · exact hr
                    · simp [List.mem_cons, hbn, h.2.2]
          obtain ⟨w1, w2, w3⟩ := ih _ _ _ g' vis' st1 hc
          have hnvis : n ∈ vis' := w2 (List.mem_cons_self n vis)
          refine ⟨w1, fun x hx => w2 (List.mem_cons_of_mem n hx), ?_⟩
          intro x hx
          rcases List.mem_cons.1 hx with rfl | hx
          · exact Or.inl hnvis
          · exact w3 x (List.mem_append_left _ hx)
        · rw [if_neg hb] at hc
          have st1 : CState d g0 g rest vis := by
            refine ⟨st.hW, st.hH, st.hnodup, st.hvin,
              fun x hx => st.hqin x (List.mem_cons_of_mem n hx), st.hheight, st.hframe,
              st.hmeta, st.hband, ?_⟩
            intro a b hab
            rcases st.hslope a b hab with h | h
            · exact Or.inl h
            · rcases List.mem_cons.1 h.2.1 with rfl | hr
              · exfalso
                have hba := st.hband a
                have hbb := st.hband b
                have h1 := h.1
                rw [hgn] at hb
                simp only [maxCellHeight] at hb hba hbb
                rcases hd with rfl | rfl <;> omega
              · exact Or.inr ⟨h.1, hr, h.2.2⟩
          obtain ⟨w1, w2, w3⟩ := ih g rest vis g' vis' st1 hc
          refine ⟨w1, w2, ?_⟩
          intro x hx
          rcases List.mem_cons.1 hx with rfl | hx
          · rw [hgn] at hb
            exact Or.inr hb
          · exact w3 x hx

/-! ### Assembly: running a full elevation call -/

theorem runCascade_isSome (d : Int) (g : Grid) (c : Int × Int)
    (hc : g.inBoundsB c = true) : (runCascade d g c).isSome = true := by
  rw [runCascade]
  apply cascade_some
  · intro x hx
    rcases List.mem_cons.1 hx with rfl | hx
    · exact hc
    · simp at hx
  · exact List.nodup_nil
  · rw [unvisitedCount_nil, Grid.cascadeFuel]
    simp

theorem cstate_init {d : Int} (hd : d = 1 ∨ d = -1) {g : Grid} {c : Int × Int}
    (hS : SlopeOk g) (hH : HeightsOk g) (hc : g.inBoundsB c = true) :
    CState d g g [c] [] := by
  refine ⟨rfl, rfl, List.nodup_nil, by simp, ?_, by simp, fun x _ => rfl,
    fun x => ⟨rfl, rfl⟩, hH, ?_⟩
  · intro x hx
    rcases List.mem_cons.1 hx with rfl | hx
    · exact hc
    · simp at hx
  · intro a b hab
    left
    have s1 := hS a b hab
    have s2 := hS b a (adj_symm hab)
    rcases hd with rfl | rfl <;> omega

theorem cascadeAndRecompute_ok {d : Int} (hd : d = 1 ∨ d = -1) {g g' : Grid} {c : Int × Int}
    (hS : SlopeOk g) (hH : HeightsOk g) (hB : BitmaskOk g)
    (hc : g.inBoundsB c = true)
    (hband : 0 ≤ g.height c + d ∧ g.height c + d ≤ maxCellHeight)
    (hok : cascadeAndRecompute d g c = .ok g') :
    SlopeOk g' ∧ HeightsOk g' ∧ BitmaskOk g' ∧ g'.width = g.width ∧ g'.gheight = g.gheight ∧
      g'.height c = g.height c + d ∧
      (∀ x, (g'.cellAt x).ttype = (g.cellAt x).ttype) := by
  rcases hrc : runCascade d g c with _ | ⟨g1, vis⟩
  · unfold cascadeAndRecompute at hok
    rw [hrc] at hok
    simp at hok
  · unfold cascadeAndRecompute at hok
    rw [hrc] at hok
    simp only [Except.ok.injEq] at hok
    subst hok
    rw [runCascade] at hrc
    obtain ⟨stf, hsub, hproc⟩ :=
      cascade_sound hd hS g.cascadeFuel g [c] [] g1 vis (cstate_init hd hS hH hc) hrc
    have hcvis : c ∈ vis := by
      rcases hproc c (List.mem_cons_self _ _) with h | h
      · exact h
      · exact absurd hband h
    have hW1 : g1.width = g.width := stf.hW
    have hH1 : g1.gheight = g.gheight := stf.hH
    have hWr : (g1.recomputeBitmasks (vis ++ vis.flatMap g1.neighborCoords)).width = g.width := by
      rw [width_recompute]
      exact hW1
    have hHr : (g1.recomputeBitmasks (vis ++ vis.flatMap g1.neighborCoords)).gheight =
        g.gheight := by
      rw [gheight_recompute]
      exact hH1
    have hslope1 : SlopeOk g1 := by
      intro a b hab
      have habg : Adj g a b := (adj_congr hW1 hH1 a b).1 hab
      rcases stf.hslope a b habg with h | h
      · have h2 := stf.hslope b a (adj_symm habg)
        rcases h2 with h2 | h2
        · rcases hd with rfl | rfl <;> omega
        · simp at h2
      · simp at h
    refine ⟨?_, ?_, ?_, hWr, hHr, ?_, ?_⟩
    · intro a b hab
      rw [height_recompute, height_recompute]
      apply hslope1
      rw [adj_congr (width_recompute g1 (vis ++ vis.flatMap g1.neighborCoords))
        (gheight_recompute g1 (vis ++ vis.flatMap g1.neighborCoords))] at hab
      exact hab
    · intro x
      rw [height_recompute]
      exact stf.hband x
    · intro x hx
      have hxg : g.inBoundsB x = true := by
        rw [inBoundsB_congr hWr hHr] at hx
        exact hx
      have hxg1 : g1.inBoundsB x = true := by
        rw [inBoundsB_congr hW1 hH1]
        exact hxg
      have hcomp : (g1.recomputeBitmasks (vis ++ vis.flatMap g1.neighborCoords)).computeBitmask x =
          g1.computeBitmask x := by
        apply computeBitmask_congr
        · rw [width_recompute]
        · rw [gheight_recompute]
        · rw [height_recompute]
        · intro dd
          rw [height_recompute]
      by_cases hxa : x ∈ vis ++ vis.flatMap g1.neighborCoords
      · rw [cellAt_recompute_mem g1 hxa, hcomp]
      · rw [cellAt_recompute_not_mem g1 hxa, hcomp]
        have hxv : x ∉ vis := fun hh => hxa (List.mem_append_left _ hh)
        have hmask : (g1.cellAt x).elevationBitmask = (g.cellAt x).elevationBitmask :=
          (stf.hmeta x).2
        rw [hmask, hB x hxg]
        apply computeBitmask_congr
        · exact hW1.symm
        · exact hH1.symm
        · rw [stf.hheight x, if_neg hxv]
          ring
        · intro dd
          by_cases hmv : neighborCoord x dd ∈ vis
          · exfalso
            apply hxa
            apply List.mem_append_right
            apply List.mem_flatMap.2
            refine ⟨neighborCoord x dd, hmv, ?_⟩
            apply mem_neighborCoords.2
            exact ⟨hxg1, adjCoord_symm (adjCoord_neighborCoord x dd)⟩
          · rw [stf.hheight _, if_neg hmv]
            ring
    · rw [height_recompute, stf.hheight c, if_pos hcvis]
    · intro x
      rw [ttype_recompute]
      exact (stf.hmeta x).1

/-! ### Invariants of the fresh grid and of setType -/

theorem slopeOk_fresh (w h : Nat) : SlopeOk (freshGrid w h) := by
  intro a b _
  rw [height_freshGrid, height_freshGrid]
  omega

theorem heightsOk_fresh (w h : Nat) : HeightsOk (freshGrid w h) := by
  intro x
  rw [height_freshGrid]
  simp [maxCellHeight]

theorem bitmaskOk_fresh (w h : Nat) : BitmaskOk (freshGrid w h) := by
  intro x _
  have hdh : ∀ dd : Direction, (freshGrid w h).dirHigher x dd = false := by
    intro dd
    simp [Grid.dirHigher, Grid.height, freshGrid]
  rw [Grid.computeBitmask]
  simp only [hdh]
  rfl

theorem slopeOk_setType {g : Grid} (hS : SlopeOk g) (c : Int × Int) (t : String) :
    SlopeOk (g.setType c t) := by
  intro a b hab
  rw [height_setType, height_setType]
  apply hS
  rw [adj_congr (width_setType g c t) (gheight_setType g c t)] at hab
  exact hab

theorem heightsOk_setType {g : Grid} (hH : HeightsOk g) (c : Int × Int) (t : String) :
    HeightsOk (g.setType c t) := by
  intro x
  rw [height_setType]
  exact hH x

theorem bitmaskOk_setType {g : Grid} (hB : BitmaskOk g) (c : Int × Int) (t : String) :
    BitmaskOk (g.setType c t) := by
  intro x hx
  rw [bitmask_setType]
  have hxg : g.inBoundsB x = true := by
    rw [inBoundsB_congr (width_setType g c t) (gheight_setType g c t)] at hx
    exact hx
  rw [hB x hxg]
  apply computeBitmask_congr
  · rfl
  · rfl
  · rw [height_setType]
  · intro dd
    rw [height_setType]

/-! ### The master invariant of reachable grids -/

theorem reachable_inv {g : Grid} (h : Reachable g) :
    SlopeOk g ∧ HeightsOk g ∧ BitmaskOk g := by
  induction h with
  | fresh w h => exact ⟨slopeOk_fresh w h, heightsOk_fresh w h, bitmaskOk_fresh w h⟩
  | raise g g' c h1 h2 ih =>
    obtain ⟨hS, hH, hB⟩ := ih
    rw [raiseHeight] at h2
    by_cases h3 : g.inBoundsB c = false
    · rw [if_pos h3] at h2
      simp at h2
    · rw [if_neg h3] at h2
      have hcb : g.inBoundsB c = true := by
        cases hq : g.inBoundsB c
        · exact absurd hq h3
        · rfl
      by_cases h4 : g.height c = maxCellHeight
      · rw [if_pos h4] at h2
        simp at h2
      · rw [if_neg h4] at h2
        have hband : 0 ≤ g.height c + 1 ∧ g.height c + 1 ≤ maxCellHeight := by
          have hx := hH c
          simp only [maxCellHeight] at hx h4 ⊢
          omega
        obtain ⟨p1, p2, p3, _⟩ :=
          cascadeAndRecompute_ok (Or.inl rfl) hS hH hB hcb hband h2
        exact ⟨p1, p2, p3⟩
  | lower g g' c h1 h2 ih =>
    obtain ⟨hS, hH, hB⟩ := ih
    rw [lowerHeight] at h2
    by_cases h3 : g.inBoundsB c = false
    · rw [if_pos h3] at h2
      simp at h2
    · rw [if_neg h3] at h2
      have hcb : g.inBoundsB c = true := by
        cases hq : g.inBoundsB c
        · exact absurd hq h3
        · rfl
      by_cases h4 : g.height c = 0
      · rw [if_pos h4] at h2
        simp at h2
      · rw [if_neg h4] at h2
        have hband : 0 ≤ g.height c + (-1) ∧ g.height c + (-1) ≤ maxCellHeight := by
          have hx := hH c
          simp only [maxCellHeight] at hx ⊢
          omega
        obtain ⟨p1, p2, p3, _⟩ :=
          cascadeAndRecompute_ok (Or.inr rfl) hS hH hB hcb hband h2
        exact ⟨p1, p2, p3⟩
  | settype g c t h1 ih =>
    obtain ⟨hS, hH, hB⟩ := ih
    exact ⟨slopeOk_setType hS c t, heightsOk_setType hH c t, bitmaskOk_setType hB c t⟩

/-! ### Helpers for the per-call theorems -/

theorem cascadeAndRecompute_ne_iv {d : Int} {g : Grid} {c : Int × Int}
    (hc : g.inBoundsB c = true) :
    cascadeAndRecompute d g c ≠ .error ElevError.InvariantViolation := by
  unfold cascadeAndRecompute
  rcases hrs : runCascade d g c with _ | ⟨g1, vis⟩
  · have hs := runCascade_isSome d g c hc
    rw [hrs] at hs
    simp at hs
  · simp

theorem runCascade_spec (d : Int) (g : Grid) (c : Int × Int) (hc : g.inBoundsB c = true) :
    ∃ g1 vis, runCascade d g c = some (g1, vis) ∧
      vis.length ≤ g.width * g.gheight ∧
      (∀ x, x ∉ vis → g1.cellAt x = g.cellAt x) := by
  have hs := runCascade_isSome d g c hc
  rcases hrs : runCascade d g c with _ | ⟨g1, vis⟩
  · rw [hrs] at hs
    simp at hs
  · refine ⟨g1, vis, rfl, ?_, ?_⟩
    · rw [runCascade] at hrs
      obtain ⟨_, _, hnd, hin, _, _⟩ := cascade_frame d g.cascadeFuel g [c] [] g1 vis
        (by intro x hx; rcases List.mem_cons.1 hx with rfl | hx; exact hc; simp at hx)
        List.nodup_nil (by simp) hrs
      have hsub : vis ⊆ allCoords g.width g.gheight := by
        intro x hx
        exact mem_allCoords_iff_inBounds.2 (hin x hx)
      have := (List.Nodup.subperm hnd hsub).length_le
      rwa [length_allCoords] at this
    · rw [runCascade] at hrs
      obtain ⟨_, _, _, _, hfr, _⟩ := cascade_frame d g.cascadeFuel g [c] [] g1 vis
        (by intro x hx; rcases List.mem_cons.1 hx with rfl | hx; exact hc; simp at hx)
        List.nodup_nil (by simp) hrs
      exact hfr

theorem raiseHeight_ok_core {g g' : Grid} {c : Int × Int} (hS : SlopeOk g) (hH : HeightsOk g)
    (hB : BitmaskOk g) (hc : g.inBoundsB c = true) (hok : raiseHeight g c = .ok g') :
    SlopeOk g' ∧ g'.height c = g.height c + 1 ∧ g'.width = g.width ∧ g'.gheight = g.gheight := by
  rw [raiseHeight, if_neg (by simp [hc])] at hok
  by_cases h4 : g.height c = maxCellHeight
  · rw [if_pos h4] at hok
    simp at hok
  · rw [if_neg h4] at hok
    have hband : 0 ≤ g.height c + 1 ∧ g.height c + 1 ≤ maxCellHeight := by
      have hx := hH c
      simp only [maxCellHeight] at hx h4 ⊢
      omega
    obtain ⟨p1, _, _, pW, pH, ph, _⟩ := cascadeAndRecompute_ok (Or.inl rfl) hS hH hB hc hband hok
    exact ⟨p1, ph, pW, pH⟩

theorem lowerHeight_ok_core {g g' : Grid} {c : Int × Int} (hS : SlopeOk g) (hH : HeightsOk g)
    (hB : BitmaskOk g) (hc : g.inBoundsB c = true) (hok : lowerHeight g c = .ok g') :
    SlopeOk g' ∧ g'.height c = g.height c - 1 ∧ g'.width = g.width ∧ g'.gheight = g.gheight := by
  rw [lowerHeight, if_neg (by simp [hc])] at hok
  by_cases h4 : g.height c = 0
  · rw [if_pos h4] at hok
    simp at hok
  · rw [if_neg h4] at hok
    have hband : 0 ≤ g.height c + (-1) ∧ g.height c + (-1) ≤ maxCellHeight := by
      have hx := hH c
      simp only [maxCellHeight] at hx ⊢
      omega
    obtain ⟨p1, _, _, pW, pH, ph, _⟩ := cascadeAndRecompute_ok (Or.inr rfl) hS hH hB hc hband hok
    refine ⟨p1, ?_, pW, pH⟩
    rw [ph]
    ring

set_option maxRecDepth 4000 in
theorem tileShape_catalog : ∀ b, b < 256 →
    (tileShape b).1 ∈ ["_flat", "_slope", "_cornerOuter", "_cornerInner"] ∧
    (tileShape b).2 ∈ (["default", "N", "E", "S", "W"] : List String) := by
  decide

/-! ### The claims -/

/-- Claim C1: for every sequence of raiseHeight/lowerHeight calls applied to a
freshly constructed grid, after each call returns, every pair of 8-adjacent
cells satisfies the slope bound, the absolute height difference is at most 1. -/
theorem claim1_slope_invariant (g : Grid) (h : Reachable g) :
    ∀ a b, Adj g a b → |g.height a - g.height b| ≤ 1 := by
  intro a b hab
  have h1 := (reachable_inv h).1 a b hab
  have h2 := (reachable_inv h).1 b a (adj_symm hab)
  rw [abs_le]
  omega

theorem claim1_witness :
    Reachable (freshGrid 2 2) ∧
      ∀ a b, Adj (freshGrid 2 2) a b →
        |(freshGrid 2 2).height a - (freshGrid 2 2).height b| ≤ 1 :=
  ⟨Reachable.fresh 2 2, claim1_slope_invariant (freshGrid 2 2) (Reachable.fresh 2 2)⟩

/-- Claim C2, counterexample: the scenario as stated is false on the model.
On the 3×3 grid, after two raises at the center, the corner cell (0,0) is at
height 1 (it is a diagonal 8-neighbor of the center and was raised by the
cascade), so the claim's conjunct that corners remain at height 0 fails. -/
theorem claim2_counterexample : scenario2.height (0, 0) = 1 ∧ ¬ claimC2Stated := by
  constructor
  · decide
  · intro h
    have h1 : scenario2.height (0, 0) = 1 := h.2.1
    have h2 : scenario2.height (0, 0) = 0 := h.2.2.2.2.2.2.2.2.2.1
    rw [h1] at h2
    exact absurd h2 (by decide)

set_option maxRecDepth 2000 in
/-- Claim C2 (amended): on the 3×3 grid, after raiseHeight(1,1) twice, the
center is at height 2 and all eight 8-neighbors of the center — which include
the four corner cells of the 3×3 — are at height 1. -/
theorem claim2_amended :
    scenario2.height (1, 1) = 2 ∧
    scenario2.height (0, 0) = 1 ∧ scenario2.height (1, 0) = 1 ∧ scenario2.height (2, 0) = 1 ∧
    scenario2.height (0, 1) = 1 ∧ scenario2.height (2, 1) = 1 ∧
    scenario2.height (0, 2) = 1 ∧ scenario2.height (1, 2) = 1 ∧ scenario2.height (2, 2) = 1 := by
  decide

set_option maxRecDepth 8000 in
/-- Claim C3: raiseHeight fails with AtMaxHeight exactly when the cell is at
maxCellHeight (given an in-bounds coordinate); on any reported failure the
caller's grid is unchanged; and on the 1×1 grid the first 32 raises succeed,
the 33rd fails with AtMaxHeight and the height stays at maxCellHeight. -/
theorem claim3_atMaxHeight :
    (∀ (g : Grid) (c : Int × Int), g.inBoundsB c = true →
      (raiseErr g c = some ElevError.AtMaxHeight ↔ g.height c = maxCellHeight)) ∧
    (∀ (g : Grid) (c : Int × Int) (e : ElevError), raiseErr g c = some e → raiseD g c = g) ∧
    (∀ k, k < 32 → raiseErr (raiseIter k) (0, 0) = none) ∧
    raiseErr (raiseIter 32) (0, 0) = some ElevError.AtMaxHeight ∧
    (raiseIter 32).height (0, 0) = maxCellHeight ∧
    raiseD (raiseIter 32) (0, 0) = raiseIter 32 := by
  have part1 : ∀ (g : Grid) (c : Int × Int), g.inBoundsB c = true →
      (raiseErr g c = some ElevError.AtMaxHeight ↔ g.height c = maxCellHeight) := by
    intro g c hc
    unfold raiseErr
    rw [raiseHeight, if_neg (by simp [hc])]
    by_cases h4 : g.height c = maxCellHeight
    · rw [if_pos h4]
      simp [h4]
    · rw [if_neg h4]
      constructor
      · intro hmm
        exfalso
        unfold cascadeAndRecompute at hmm
        rcases hrs : runCascade 1 g c with _ | ⟨g1, vis⟩
        · rw [hrs] at hmm
          simp at hmm
        · rw [hrs] at hmm
          simp at hmm
      · intro hmm
        exact absurd hmm h4
  have part2 : ∀ (g : Grid) (c : Int × Int) (e : ElevError),
      raiseErr g c = some e → raiseD g c = g := by
    intro g c e he
    unfold raiseErr at he
    unfold raiseD
    cases hr : raiseHeight g c with
    | ok g1 =>
      rw [hr] at he
      simp at he
    | error e1 =>
      rfl
  have part4 : raiseErr (raiseIter 32) (0, 0) = some ElevError.AtMaxHeight := by
    decide
  refine ⟨part1, part2, by decide, part4, by decide, part2 _ _ _ part4⟩

theorem claim3_witness :
    ((freshGrid 1 1).inBoundsB (0, 0) = true) ∧
    (raiseErr (freshGrid 1 1) (0, 0) = some ElevError.AtMaxHeight ↔
      (freshGrid 1 1).height (0, 0) = maxCellHeight) :=
  ⟨by decide, claim3_atMaxHeight.1 (freshGrid 1 1) (0, 0) (by decide)⟩

/-- Claim C4: for every reachable grid and in-bounds cell, bit `d.idx` of the
stored neighbor bitmask is set exactly when the neighbor in direction `d`
exists within the grid and has strictly greater height; missing neighbors at
the map edge leave their bit unset. -/
theorem claim4_bitmask (g : Grid) (h : Reachable g) (c : Int × Int)
    (hc : g.inBoundsB c = true) (d : Direction) :
    (g.cellAt c).elevationBitmask.testBit d.idx = true ↔
      (g.inBoundsB (neighborCoord c d) = true ∧
        g.height c < g.height (neighborCoord c d)) := by
  have hB := (reachable_inv h).2.2
  rw [hB c hc, testBit_computeBitmask, Grid.dirHigher]
  simp [Bool.and_eq_true, decide_eq_true_eq]

theorem claim4_witness :
    Reachable (freshGrid 2 2) ∧ (freshGrid 2 2).inBoundsB (0, 0) = true ∧
    (((freshGrid 2 2).cellAt (0, 0)).elevationBitmask.testBit Direction.E.idx = true ↔
      ((freshGrid 2 2).inBoundsB (neighborCoord (0, 0) Direction.E) = true ∧
        (freshGrid 2 2).height (0, 0) < (freshGrid 2 2).height (neighborCoord (0, 0) Direction.E))) :=
  ⟨Reachable.fresh 2 2, by decide,
   claim4_bitmask (freshGrid 2 2) (Reachable.fresh 2 2) (0, 0) (by decide) Direction.E⟩

/-- Claim C5: the tile selector is total — for every one of the 256 possible
bitmask values and every terrain type it yields a defined tile key, drawn from
the catalog of flat, slope, outer-corner and inner-corner shapes, with an
orientation among the four cardinal rotations or the flat default. -/
theorem claim5_tileSelector_total (b : Nat) (t : String) (hb : b < 256) :
    ∃ tid orient, tileSelector b t = (tid, orient) ∧
      tid ∈ [t ++ "_flat", t ++ "_slope", t ++ "_cornerOuter", t ++ "_cornerInner"] ∧
      orient ∈ (["default", "N", "E", "S", "W"] : List String) := by
  obtain ⟨h1, h2⟩ := tileShape_catalog b hb
  refine ⟨t ++ (tileShape b).1, (tileShape b).2, rfl, ?_, h2⟩
  simp only [List.mem_cons, List.not_mem_nil, or_false] at h1
  rcases h1 with h | h | h | h <;> rw [h] <;> simp

theorem claim5_witness :
    (16 < 256) ∧
    (∃ tid orient, tileSelector 16 "Terrain" = (tid, orient) ∧
      tid ∈ ["Terrain" ++ "_flat", "Terrain" ++ "_slope", "Terrain" ++ "_cornerOuter",
        "Terrain" ++ "_cornerInner"] ∧
      orient ∈ (["default", "N", "E", "S", "W"] : List String)) :=
  ⟨by decide, claim5_tileSelector_total 16 "Terrain" (by decide)⟩

/-- Claim C6: the tile selector is deterministic — equal bitmask and terrain
type arguments give identical results, so two cells with identical stored
bitmask and terrain type resolve to the same tile key. -/
theorem claim6_deterministic :
    (∀ (b1 b2 : Nat) (t1 t2 : String), b1 = b2 → t1 = t2 →
      tileSelector b1 t1 = tileSelector b2 t2) ∧
    (∀ (g : Grid) (c1 c2 : Int × Int),
      (g.cellAt c1).elevationBitmask = (g.cellAt c2).elevationBitmask →
      (g.cellAt c1).ttype = (g.cellAt c2).ttype →
      g.cellTileKey c1 = g.cellTileKey c2) := by
  constructor
  · intro b1 b2 t1 t2 h1 h2
    rw [h1, h2]
  · intro g c1 c2 h1 h2
    rw [Grid.cellTileKey, Grid.cellTileKey, h1, h2]

theorem claim6_witness :
    tileSelector 16 "Terrain" = tileSelector 16 "Terrain" ∧
    (freshGrid 2 2).cellTileKey (0, 0) = (freshGrid 2 2).cellTileKey (1, 1) :=
  ⟨claim6_deterministic.1 16 16 "Terrain" "Terrain" rfl rfl,
   claim6_deterministic.2 (freshGrid 2 2) (0, 0) (1, 1) rfl rfl⟩

/-- Claim C7: setType mutates only the terrain type of the targeted cell:
height, bitmask and the grid extent are unchanged, no cascade runs, and every
other cell is untouched. -/
theorem claim7_setType_frame (g : Grid) (c : Int × Int) (t : String) :
    ((g.setType c t).cellAt c).ttype = t ∧
    (∀ x, (g.setType c t).height x = g.height x) ∧
    ((g.setType c t).cellAt c).elevationBitmask = (g.cellAt c).elevationBitmask ∧
    (g.setType c t).width = g.width ∧ (g.setType c t).gheight = g.gheight ∧
    (∀ x, x ≠ c → (g.setType c t).cellAt x = g.cellAt x) :=
  ⟨ttype_setType_self g c t, height_setType g c t, bitmask_setType g c t c, rfl, rfl,
   fun _ hx => cellAt_setType_ne g c t hx⟩

theorem claim7_witness :
    (((freshGrid 2 2).setType (0, 0) "Water").cellAt (0, 0)).ttype = "Water" ∧
    ((freshGrid 2 2).setType (0, 0) "Water").cellAt (1, 1) = (freshGrid 2 2).cellAt (1, 1) :=
  ⟨(claim7_setType_frame (freshGrid 2 2) (0, 0) "Water").1,
   (claim7_setType_frame (freshGrid 2 2) (0, 0) "Water").2.2.2.2.2 (1, 1) (by decide)⟩

/-- Claim C8: every raise/lower call terminates — the cascade work queue
settles within its fuel for every in-bounds start, touching (modifying) at
most width×gheight cells, and the internal InvariantViolation signal never
surfaces from raiseHeight or lowerHeight. -/
theorem claim8_termination :
    (∀ (g : Grid) (c : Int × Int), g.inBoundsB c = true →
      ∃ g1 vis, runCascade 1 g c = some (g1, vis) ∧
        vis.length ≤ g.width * g.gheight ∧
        (∀ x, x ∉ vis → g1.cellAt x = g.cellAt x)) ∧
    (∀ (g : Grid) (c : Int × Int), g.inBoundsB c = true →
      ∃ g1 vis, runCascade (-1) g c = some (g1, vis) ∧
        vis.length ≤ g.width * g.gheight ∧
        (∀ x, x ∉ vis → g1.cellAt x = g.cellAt x)) ∧
    (∀ (g : Grid) (c : Int × Int), raiseHeight g c ≠ .error ElevError.InvariantViolation) ∧
    (∀ (g : Grid) (c : Int × Int), lowerHeight g c ≠ .error ElevError.InvariantViolation) := by
  refine ⟨runCascade_spec 1, runCascade_spec (-1), ?_, ?_⟩
  · intro g c
    rw [raiseHeight]
    by_cases h3 : g.inBoundsB c = false
    · rw [if_pos h3]
      simp
    · rw [if_neg h3]
      have hcb : g.inBoundsB c = true := by
        cases hq : g.inBoundsB c
        · exact absurd hq h3
        · rfl
      by_cases h4 : g.height c = maxCellHeight
      · rw [if_pos h4]
        simp
      · rw [if_neg h4]
        exact cascadeAndRecompute_ne_iv hcb
  · intro g c
    rw [lowerHeight]
    by_cases h3 : g.inBoundsB c = false
    · rw [if_pos h3]
      simp
    · rw [if_neg h3]
      have hcb : g.inBoundsB c = true := by
        cases hq : g.inBoundsB c
        · exact absurd hq h3
        · rfl
      by_cases h4 : g.height c = 0
      · rw [if_pos h4]
        simp
      · rw [if_neg h4]
        exact cascadeAndRecompute_ne_iv hcb

theorem claim8_witness :
    ∃ g1 vis, runCascade 1 (freshGrid 1 1) (0, 0) = some (g1, vis) ∧
      vis.length ≤ (freshGrid 1 1).width * (freshGrid 1 1).gheight ∧
      (∀ x, x ∉ vis → g1.cellAt x = (freshGrid 1 1).cellAt x) :=
  claim8_termination.1 (freshGrid 1 1) (0, 0) (by decide)

/-- Claim C9: lowerHeight fails with AtMinHeight exactly when the cell is at
height 0 (given an in-bounds coordinate), with no state change on any
reported failure; otherwise it decrements the cell by one, and every neighbor
left more than one above the decremented cell is itself lowered by the
cascade. -/
theorem claim9_lowerHeight :
    (∀ (g : Grid) (c : Int × Int), g.inBoundsB c = true →
      (lowerErr g c = some ElevError.AtMinHeight ↔ g.height c = 0)) ∧
    (∀ (g : Grid) (c : Int × Int) (e : ElevError), lowerErr g c = some e → lowerD g c = g) ∧
    (∀ (g g' : Grid) (c : Int × Int), Reachable g → g.inBoundsB c = true →
      lowerHeight g c = .ok g' →
      g'.height c = g.height c - 1 ∧
      (∀ x, Adj g c x → g.height x - (g.height c - 1) > 1 → g'.height x < g.height x)) := by
  refine ⟨?_, ?_, ?_⟩
  · intro g c hc
    unfold lowerErr
    rw [lowerHeight, if_neg (by simp [hc])]
    by_cases h4 : g.height c = 0
    · rw [if_pos h4]
      simp [h4]
    · rw [if_neg h4]
      constructor
      · intro hmm
        exfalso
        unfold cascadeAndRecompute at hmm
        rcases hrs : runCascade (-1) g c with _ | ⟨g1, vis⟩
        · rw [hrs] at hmm
          simp at hmm
        · rw [hrs] at hmm
          simp at hmm
      · intro hmm
        exact absurd hmm h4
  · intro g c e he
    unfold lowerErr at he
    unfold lowerD
    cases hr : lowerHeight g c with
    | ok g1 =>
      rw [hr] at he
      simp at he
    | error e1 =>
      rfl
  · intro g g' c hR hc hok
    obtain ⟨hS, hH, hB⟩ := reachable_inv hR
    obtain ⟨hS', hhc, hW, hHt⟩ := lowerHeight_ok_core hS hH hB hc hok
    refine ⟨hhc, ?_⟩
    intro x hadj hgt
    have s1 := hS c x hadj
    have s2 := hS x c (adj_symm hadj)
    have hadj' : Adj g' x c := (adj_congr hW hHt x c).2 (adj_symm hadj)
    have s3 := hS' x c hadj'
    omega

theorem claim9_witness :
    ((freshGrid 1 1).inBoundsB (0, 0) = true) ∧
    (lowerErr (freshGrid 1 1) (0, 0) = some ElevError.AtMinHeight ↔
      (freshGrid 1 1).height (0, 0) = 0) :=
  ⟨by decide, claim9_lowerHeight.1 (freshGrid 1 1) (0, 0) (by decide)⟩

/-- Claim C10: the implementation fixes MAX_HEIGHT at 32 (`_maxCellHeight` in
mapNode.hxx); every cell of every reachable grid has height in [0, 32]; and a
successful raise increments the target cell by exactly one, so raising a cell
from height 0 can succeed at most 32 times before AtMaxHeight is reported. -/
theorem claim10_maxHeight :
    maxCellHeight = 32 ∧
    (∀ g : Grid, Reachable g → ∀ x, 0 ≤ g.height x ∧ g.height x ≤ 32) ∧
    (∀ (g g' : Grid) (c : Int × Int), Reachable g → g.inBoundsB c = true →
      raiseHeight g c = .ok g' → g'.height c = g.height c + 1) := by
  refine ⟨rfl, ?_, ?_⟩
  · intro g hR x
    have hx := (reachable_inv hR).2.1 x
    simp only [maxCellHeight] at hx
    exact hx
  · intro g g' c hR hc hok
    obtain ⟨hS, hH, hB⟩ := reachable_inv hR
    exact (raiseHeight_ok_core hS hH hB hc hok).2.1

theorem claim10_witness :
    0 ≤ (freshGrid 1 1).height (0, 0) ∧ (freshGrid 1 1).height (0, 0) ≤ 32 :=
  claim10_maxHeight.2.1 (freshGrid 1 1) (Reachable.fresh 1 1) (0, 0)

end Cytopia
